import Mathlib

/-!
Shallow embedding of the Durak agent decision core (src/player.py,
src/agent.py, src/durak.py): the card data model, the feature encoder,
the logistic value model, the TD(0) weight update, the greedy reflex
selectors, and the bounded-depth alpha-beta endgame search, together
with theorems checking the natural-language specification against these
definitions.

Numeric conventions: Python floats are modelled as real numbers; the
feature encoder only ever produces rational values (counts and average
ranks), so it is embedded as a computable function into `ℚ` and cast to
`ℝ` where it meets the logistic value model.
-/

namespace Durak

/-- Card from src/durak.py: an immutable (suit, rank) pair. Suits are
0 = clubs, 1 = hearts, 2 = diamonds, 3 = spades; ranks range over 6..14. -/
structure Card where
  suit : ℕ
  rank : ℕ
deriving DecidableEq, Repr

/-- Card.RANKS = range(6, 14 + 1) from src/durak.py: the nine ranks 6..14. -/
def RANKS : List ℕ := List.range' 6 9

/-- avgRank from src/player.py: sum of ranks divided by the number of cards,
with the empty set mapped to 0 rather than dividing by zero. -/
def avgRank (cards : List Card) : ℚ :=
  let rankSum : ℚ := (cards.map fun c => (c.rank : ℚ)).sum
  if cards.length = 0 then 0 else rankSum / (cards.length : ℚ)

/-- Python max over the set of ranks appearing on the table
(max(tableRanks) in extractFeatures; only consulted when the table is
non-empty, where it agrees with folding max from 0 over ℕ). -/
def maxTableRank (table : List Card) : ℕ :=
  (table.map Card.rank).foldr max 0

/-- extractFeatures from src/player.py lines 274-316. The unseenCards
argument is accepted but unused: the hypergeometric block that would
consult it is commented out in the source. Returns the 29 features in
source order. -/
def extractFeatures (hand opponentHand : List Card) (opponentHandSize : ℕ)
    (trumpCard : Card) (table : List Card) (deckSize : ℤ)
    (unseenCards : List Card) : List ℚ :=
  let features : List ℚ :=
    [(hand.length : ℚ), (table.length : ℚ), (deckSize : ℚ), (opponentHandSize : ℚ)]
  let features := features ++
    RANKS.map (fun rank => ((hand.filter fun c => c.rank = rank).length : ℚ))
  let royals := hand.filter fun c => 10 < c.rank
  let clubs := hand.filter fun c => c.suit = 0
  let hearts := hand.filter fun c => c.suit = 1
  let diamonds := hand.filter fun c => c.suit = 2
  let spades := hand.filter fun c => c.suit = 3
  let trumps := hand.filter fun c => c.suit = trumpCard.suit
  let tableRanks := (table.map Card.rank).dedup
  let attackCards := hand.filter fun c => c.rank ∈ tableRanks
  let defendCards :=
    if 0 < tableRanks.length then
      hand.filter fun c => maxTableRank table < c.rank ∨ c.suit = trumpCard.suit
    else
      hand
  let oppAttackCards := opponentHand.filter fun c => c.rank ∈ tableRanks
  let expAttackCards := oppAttackCards.length
  let oppDefendCards :=
    if 0 < tableRanks.length then
      opponentHand.filter fun c => maxTableRank table < c.rank ∨ c.suit = trumpCard.suit
    else
      opponentHand
  let expDefendCards := oppDefendCards.length
  features ++
    [(royals.length : ℚ), (clubs.length : ℚ), (hearts.length : ℚ),
     (diamonds.length : ℚ), (spades.length : ℚ), (trumps.length : ℚ),
     avgRank clubs, avgRank hearts, avgRank diamonds, avgRank spades,
     avgRank trumps,
     (attackCards.length : ℚ), (defendCards.length : ℚ),
     (tableRanks.length : ℚ), (expAttackCards : ℚ), (expDefendCards : ℚ)]

/-- Cast of the rational feature vector into the reals, where it is consumed
by the logistic value model. -/
noncomputable def realFeatures (qs : List ℚ) : List ℝ :=
  qs.map fun q : ℚ => (q : ℝ)

/-- Dot product z = sum(weight * feature for weight, feature in zip(weights,
features)) from logisticValue in src/player.py. -/
noncomputable def dotProd (weights features : List ℝ) : ℝ :=
  ((weights.zip features).map fun p => p.1 * p.2).sum

/-- logisticValue from src/player.py lines 319-321: the sigmoid of the dot
product of weights and features. -/
noncomputable def logisticValue (weights features : List ℝ) : ℝ :=
  1 / (1 + Real.exp (-(dotProd weights features)))

/-- State tuple fed to extractFeatures via extractFeatures(*state) in the
TD update entry points (see the preAttackState / postDefendState tuples
built in src/durak.py). -/
structure Snapshot where
  hand : List Card
  opponentHand : List Card
  opponentHandSize : ℕ
  trumpCard : Card
  table : List Card
  deckSize : ℤ
  unseenCards : List Card

/-- extractFeatures applied to a state tuple. -/
def snapFeatures (s : Snapshot) : List ℚ :=
  extractFeatures s.hand s.opponentHand s.opponentHandSize s.trumpCard
    s.table s.deckSize s.unseenCards

/-- Common body of ReflexCPUPlayer.TDUpdateAttack and TDUpdateDefend
(src/player.py lines 376-400), which are textually identical apart from
the weight vector they read and store; the weights are a parameter here.
The learning rate 1e-1 is the literal from the source. -/
noncomputable def tdUpdate (weights : List ℝ) (state : Snapshot)
    (newState : Option Snapshot) (reward : ℝ) : List ℝ :=
  let stateFeatures := realFeatures (snapFeatures state)
  let value := logisticValue weights stateFeatures
  let residual := reward - value
  let residual :=
    match newState with
    | some ns => residual + logisticValue weights (realFeatures (snapFeatures ns))
    | none => residual
  let gradient := stateFeatures.map fun f => value * (1 - value) * f
  List.zipWith (fun w g => w + 0.1 * residual * g) weights gradient

/-- ReflexCPUPlayer.TDUpdateAttack (src/player.py lines 376-386). The
source has no guard on state: a None state reaches extractFeatures(*state)
and raises a TypeError, modelled as the result none. -/
noncomputable def tdUpdateAttack (attackWeights : List ℝ)
    (state newState : Option Snapshot) (reward : ℝ) : Option (List ℝ) :=
  match state with
  | none => none
  | some s => some (tdUpdate attackWeights s newState reward)

/-- ReflexCPUPlayer.TDUpdateDefend (src/player.py lines 388-400): a None
state returns immediately, leaving the stored weights unchanged. -/
noncomputable def tdUpdateDefend (defendWeights : List ℝ)
    (state newState : Option Snapshot) (reward : ℝ) : Option (List ℝ) :=
  match state with
  | none => some defendWeights
  | some s => some (tdUpdate defendWeights s newState reward)

/-- Weight initialization [random.gauss(0, 1e-2) for _ in range(29)] from
src/player.py lines 325-326, with the random draws abstracted as a
function from the index. -/
def initWeights (gauss : ℕ → ℝ) : List ℝ :=
  (List.range 29).map gauss

/-- Score of one concrete option inside ReflexCPUPlayer.chooseAction
(src/player.py lines 334-339): the logistic value of the hypothetical
state after removing the card from the hand and appending it to the
table. List.erase matches Python list.remove (first occurrence). -/
noncomputable def optionScore (hand opponentHand unseenCards : List Card)
    (table : List Card) (trumpCard : Card) (deckSize : ℤ)
    (opponentHandSize : ℕ) (weights : List ℝ) (card : Card) : ℝ :=
  logisticValue weights (realFeatures
    (extractFeatures (hand.erase card) opponentHand opponentHandSize
      trumpCard (table ++ [card]) deckSize unseenCards))

/-- One step of the running-maximum loop of ReflexCPUPlayer.chooseAction:
replace the stored (maxI, maxV) exactly when the new value is strictly
greater (if maxV is None or v > maxV in the source). -/
noncomputable def maxStep (acc : Option (ℕ × ℝ)) (iv : ℕ × ℝ) :
    Option (ℕ × ℝ) :=
  match acc with
  | none => some iv
  | some (maxI, maxV) => if maxV < iv.2 then some iv else some (maxI, maxV)

/-- Stable argmax over an enumerated value list, as computed by the loop of
ReflexCPUPlayer.chooseAction; none exactly on the empty list. -/
noncomputable def pyArgmax (vals : List ℝ) : Option (ℕ × ℝ) :=
  vals.enum.foldl maxStep none

/-- ReflexCPUPlayer.chooseAction (src/player.py lines 331-343): returns
(maxI, maxV), the first-encountered maximum-scoring option index and its
score, or none when the options list is empty. -/
noncomputable def chooseAction (hand opponentHand unseenCards : List Card)
    (opts table : List Card) (trumpCard : Card) (deckSize : ℤ)
    (opponentHandSize : ℕ) (weights : List ℝ) : Option (ℕ × ℝ) :=
  pyArgmax (opts.map (optionScore hand opponentHand unseenCards table
    trumpCard deckSize opponentHandSize weights))

/-- Score of the hypothetical stop-attacking state built in
ReflexCPUPlayer.chooseAttackCard (src/player.py lines 354-357). -/
noncomputable def attackStopValue (hand opponentHand unseenCards : List Card)
    (trumpCard : Card) (deckSize : ℤ) (opponentHandSize : ℕ)
    (weights : List ℝ) : ℝ :=
  let newDeckSize := deckSize - max 0 (6 - (hand.length : ℤ))
    - max 0 (6 - (opponentHandSize : ℤ))
  logisticValue weights (realFeatures
    (extractFeatures hand opponentHand (max opponentHandSize 6) trumpCard []
      newDeckSize unseenCards))

/-- Score of the hypothetical surrender state built in
ReflexCPUPlayer.chooseDefenseCard (src/player.py lines 367-370): the
table cards are added to the hand. -/
noncomputable def defendStopValue (hand opponentHand unseenCards
    table : List Card) (trumpCard : Card) (deckSize : ℤ)
    (opponentHandSize : ℕ) (weights : List ℝ) : ℝ :=
  let newDeckSize := deckSize - max 0 (6 - ((hand ++ table).length : ℤ))
    - max 0 (6 - (opponentHandSize : ℤ))
  logisticValue weights (realFeatures
    (extractFeatures (hand ++ table) opponentHand (max opponentHandSize 6)
      trumpCard [] newDeckSize unseenCards))

/-- ReflexCPUPlayer.chooseAttackCard (src/player.py lines 350-361): -1 when
the stop-state score strictly exceeds the best option score, else the best
option index. On an empty options list chooseAction yields maxV = None and
Python 2 evaluates stopV > None as true, so -1 is returned. -/
noncomputable def chooseAttackCard (hand opponentHand unseenCards : List Card)
    (options table : List Card) (trumpCard : Card) (deckSize : ℤ)
    (opponentHandSize : ℕ) (attackWeights : List ℝ) : ℤ :=
  match chooseAction hand opponentHand unseenCards options table trumpCard
      deckSize opponentHandSize attackWeights with
  | some (maxI, maxV) =>
      if maxV < attackStopValue hand opponentHand unseenCards trumpCard
          deckSize opponentHandSize attackWeights then -1
      else (maxI : ℤ)
  | none => -1

/-- ReflexCPUPlayer.chooseDefenseCard (src/player.py lines 363-374). -/
noncomputable def chooseDefenseCard (hand opponentHand unseenCards : List Card)
    (options table : List Card) (trumpCard : Card) (deckSize : ℤ)
    (opponentHandSize : ℕ) (defendWeights : List ℝ) : ℤ :=
  match chooseAction hand opponentHand unseenCards options table trumpCard
      deckSize opponentHandSize defendWeights with
  | some (maxI, maxV) =>
      if maxV < defendStopValue hand opponentHand unseenCards table trumpCard
          deckSize opponentHandSize defendWeights then -1
      else (maxI : ℤ)
  | none => -1

/-- Formalisation of the wording of the spec for feature "12": a hand card
beats the highest-ranked table card when it has a strictly higher rank in
the same suit, or is of the trump suit. highCard stands for the table card
carrying the highest table rank. -/
def claimedBeatCount (hand : List Card) (trumpCard highCard : Card) : ℕ :=
  (hand.filter fun c =>
    (c.suit = highCard.suit ∧ highCard.rank < c.rank)
      ∨ c.suit = trumpCard.suit).length

/-- Move value in src/agent.py: either a concrete card or the
dk.Durak.END_ROUND sentinel. -/
inductive PCard where
  | card (c : Card)
  | endRound
deriving DecidableEq, Repr

/-- Rank of a move option (END_ROUND carries no rank in the source; it is
stripped before ranks are consulted, so the value here is immaterial). -/
def pcRank : PCard → ℕ
  | PCard.card c => c.rank
  | PCard.endRound => 0

/-- Suit of a move option (END_ROUND carries no suit in the source; 4 is
outside the suit enumeration 0..3). -/
def pcSuit : PCard → ℕ
  | PCard.card c => c.suit
  | PCard.endRound => 4

/-- SimpleAgent.policy (src/agent.py lines 67-78): strip a trailing
END_ROUND, sort ascending by rank, and take the lowest non-trump card,
else the lowest trump card, else END_ROUND. -/
def policy (cards : List PCard) (trumpSuit : ℕ) : PCard :=
  let cards :=
    if cards.getLast? = some PCard.endRound then cards.dropLast else cards
  let sortedCards := cards.mergeSort fun a b => pcRank a ≤ pcRank b
  let trumpCards := sortedCards.filter fun c => pcSuit c = trumpSuit
  let nonTrumpCards := sortedCards.filter fun c => ¬ pcSuit c = trumpSuit
  match nonTrumpCards with
  | c :: _ => c
  | [] =>
    match trumpCards with
    | c :: _ => c
    | [] => PCard.endRound

/-- Modelled from the spec: the interface of the durak2.Durak game object
and the util feature helpers consumed by src/agent.py. durak2.py and
util.py are not under src/, so the game dynamics (playCard, round and
game termination, legal-option generation, per-state features) are
abstract operations here; players are identified by a Bool. stateFeatures
stands for util.extractFeatures(game.getState(agent)). -/
structure GameAPI (G : Type) where
  playCard : Bool → PCard → G → G
  roundOver : G → Bool
  endRound : G → G
  gameOver : G → Bool
  isWinner : Bool → G → Bool
  isLoser : Bool → G → Bool
  attacker : G → Bool
  getAttackOptions : Bool → G → List PCard
  getDefendOptions : Bool → G → List PCard
  stateFeatures : Bool → G → List ℝ
  deck : G → List PCard
  trumpSuit : G → ℕ

mutual

/-- SimpleEnhancedAgent.getValueRec (src/agent.py lines 172-214):
depth-limited alpha-beta over the abstract game interface. The float
values with float(inf) sentinels are modelled in EReal. agent is the
player about to move at this node; card is the move just chosen by the
other player. Depth is decremented exactly when the recursion hands the
move back to this agent (otherAgent == playerNum). -/
noncomputable def getValueRec {G : Type} (A : GameAPI G) (wAtk wDef : List ℝ)
    (playerNum agent : Bool) (game : G) (card : PCard) (depth : ℕ)
    (alpha beta : EReal) : EReal :=
  let otherAgent := !agent
  let gameClone := A.playCard otherAgent card game
  let gameClone :=
    if A.roundOver gameClone then A.endRound gameClone else gameClone
  if A.gameOver gameClone && A.isWinner playerNum gameClone then 1
  else if A.gameOver gameClone && A.isLoser playerNum gameClone then 0
  else
    match depth with
    | 0 =>
      ((logisticValue (if agent = A.attacker gameClone then wAtk else wDef)
        (A.stateFeatures agent gameClone) : ℝ) : EReal)
    | d + 1 =>
      let depthNew := if otherAgent = playerNum then d else d + 1
      let cards :=
        if agent = A.attacker gameClone then A.getAttackOptions agent gameClone
        else A.getDefendOptions agent gameClone
      if agent = playerNum then
        abMaxGo A wAtk wDef playerNum otherAgent gameClone depthNew beta
          ⊥ alpha cards
      else
        abMinGo A wAtk wDef playerNum otherAgent gameClone depthNew alpha
          ⊤ beta cards
termination_by
  (2 * depth + (if agent = playerNum then 1 else 0), 1, 0)
decreasing_by
all_goals simp_wf
all_goals simp only [Prod.lex_def]
all_goals cases agent <;> cases playerNum <;> simp_all <;> omega

/-- Maximizing loop of getValueRec (v from -inf; prune when v >= beta;
alpha = max(alpha, v)). agent and depth are those of the child calls. -/
noncomputable def abMaxGo {G : Type} (A : GameAPI G) (wAtk wDef : List ℝ)
    (playerNum agent : Bool) (game : G) (depth : ℕ) (beta v alpha : EReal)
    (cards : List PCard) : EReal :=
  match cards with
  | [] => v
  | c :: rest =>
    let v2 := max v (getValueRec A wAtk wDef playerNum agent game c depth
      alpha beta)
    if beta ≤ v2 then v2
    else abMaxGo A wAtk wDef playerNum agent game depth beta v2
      (max alpha v2) rest
termination_by
  (2 * depth + (if agent = playerNum then 1 else 0) + 1, 0, cards.length)
decreasing_by
all_goals simp_wf
all_goals simp only [Prod.lex_def]
all_goals cases agent <;> cases playerNum <;> simp_all <;> omega

/-- Minimizing loop of getValueRec (v from +inf; prune when v <= alpha;
beta = min(beta, v)). agent and depth are those of the child calls. -/
noncomputable def abMinGo {G : Type} (A : GameAPI G) (wAtk wDef : List ℝ)
    (playerNum agent : Bool) (game : G) (depth : ℕ) (alpha v beta : EReal)
    (cards : List PCard) : EReal :=
  match cards with
  | [] => v
  | c :: rest =>
    let v2 := min v (getValueRec A wAtk wDef playerNum agent game c depth
      alpha beta)
    if v2 ≤ alpha then v2
    else abMinGo A wAtk wDef playerNum agent game depth alpha v2
      (min beta v2) rest
termination_by
  (2 * depth + (if agent = playerNum then 1 else 0) + 1, 0, cards.length)
decreasing_by
all_goals simp_wf
all_goals simp only [Prod.lex_def]
all_goals cases agent <;> cases playerNum <;> simp_all <;> omega

end

/-- Python max(cards, key=f): the first-encountered element with maximal
key; none on the empty list (where Python raises ValueError). -/
noncomputable def pyMaxKey (f : PCard → EReal) : List PCard → Option PCard
  | [] => none
  | c :: rest =>
    some (rest.foldl (fun best x => if f best < f x then x else best) c)

/-- SimpleEnhancedAgent.minimaxChoice (src/agent.py lines 165-170): root
argmax of the alpha-beta value of each candidate, searched from the
opponent's reply with the full (-inf, +inf) window for every candidate. -/
noncomputable def minimaxChoice {G : Type} (A : GameAPI G)
    (wAtk wDef : List ℝ) (depth : ℕ) (playerNum : Bool) (cards : List PCard)
    (game : G) : Option PCard :=
  let opponent := !playerNum
  pyMaxKey (fun c => getValueRec A wAtk wDef playerNum opponent game c depth
    ⊥ ⊤) cards

/-- SimpleEnhancedAgent.getAttackCard (src/agent.py lines 216-222):
deck non-empty uses the inherited simple policy; with an empty deck a
single option is returned directly, otherwise the minimax search runs. -/
noncomputable def getAttackCard {G : Type} (A : GameAPI G)
    (wAtk wDef : List ℝ) (depth : ℕ) (playerNum : Bool) (cards : List PCard)
    (game : G) : Option PCard :=
  if 0 < (A.deck game).length then some (policy cards (A.trumpSuit game))
  else if cards.length = 1 then cards.head?
  else minimaxChoice A wAtk wDef depth playerNum cards game

/-- SimpleEnhancedAgent.getDefendCard (src/agent.py lines 224-230): same
dispatch as getAttackCard. -/
noncomputable def getDefendCard {G : Type} (A : GameAPI G)
    (wAtk wDef : List ℝ) (depth : ℕ) (playerNum : Bool) (cards : List PCard)
    (game : G) : Option PCard :=
  if 0 < (A.deck game).length then some (policy cards (A.trumpSuit game))
  else if cards.length = 1 then cards.head?
  else minimaxChoice A wAtk wDef depth playerNum cards game

/-- Concrete instantiation of the game interface used to exercise the
dispatch of getAttackCard / getDefendCard on closed inputs. -/
def toyGame : GameAPI Bool where
  playCard _ _ g := g
  roundOver _ := false
  endRound g := g
  gameOver _ := true
  isWinner _ _ := true
  isLoser _ _ := false
  attacker _ := true
  getAttackOptions _ _ := []
  getDefendOptions _ _ := []
  stateFeatures _ _ := []
  deck g := if g then [PCard.endRound] else []
  trumpSuit _ := 0

/-- Concrete game whose root alpha-beta values distinguish the cards: the
state records the card just played, the game is immediately over, and
only the six of clubs wins for every player. -/
def pickyGame : GameAPI (Option PCard) where
  playCard _ c _ := some c
  roundOver _ := false
  endRound g := g
  gameOver _ := true
  isWinner _ g := g == some (PCard.card ⟨0, 6⟩)
  isLoser _ g := !(g == some (PCard.card ⟨0, 6⟩))
  attacker _ := true
  getAttackOptions _ _ := []
  getDefendOptions _ _ := []
  stateFeatures _ _ := []
  deck _ := []
  trumpSuit _ := 0


/-- Residual as the spec states it for the TD(0) update: reward minus the
current value, plus the bootstrap value of the post-state when one is
provided (no discount factor, no subtraction of the bootstrap term). -/
noncomputable def specResidual (w : List ℝ) (s : Snapshot)
    (post : Option Snapshot) (r : ℝ) : ℝ :=
  r - logisticValue w (realFeatures (snapFeatures s)) +
    (match post with
     | some t => logisticValue w (realFeatures (snapFeatures t))
     | none => 0)

/-- State tuple on empty collections, used to exercise the TD update
theorems on closed inputs. -/
def snap0 : Snapshot := ⟨[], [], 0, ⟨0, 6⟩, [], 0, []⟩

/-- Expanded literal form of the 29-entry feature vector, in source order. -/
theorem extractFeatures_eq (hand opponentHand : List Card)
    (opponentHandSize : ℕ) (trumpCard : Card) (table : List Card)
    (deckSize : ℤ) (unseenCards : List Card) :
    extractFeatures hand opponentHand opponentHandSize trumpCard table
        deckSize unseenCards =
      [(hand.length : ℚ), (table.length : ℚ), (deckSize : ℚ),
       (opponentHandSize : ℚ),
       ((hand.filter fun c => c.rank = 6).length : ℚ),
       ((hand.filter fun c => c.rank = 7).length : ℚ),
       ((hand.filter fun c => c.rank = 8).length : ℚ),
       ((hand.filter fun c => c.rank = 9).length : ℚ),
       ((hand.filter fun c => c.rank = 10).length : ℚ),
       ((hand.filter fun c => c.rank = 11).length : ℚ),
       ((hand.filter fun c => c.rank = 12).length : ℚ),
       ((hand.filter fun c => c.rank = 13).length : ℚ),
       ((hand.filter fun c => c.rank = 14).length : ℚ),
       ((hand.filter fun c => 10 < c.rank).length : ℚ),
       ((hand.filter fun c => c.suit = 0).length : ℚ),
       ((hand.filter fun c => c.suit = 1).length : ℚ),
       ((hand.filter fun c => c.suit = 2).length : ℚ),
       ((hand.filter fun c => c.suit = 3).length : ℚ),
       ((hand.filter fun c => c.suit = trumpCard.suit).length : ℚ),
       avgRank (hand.filter fun c => c.suit = 0),
       avgRank (hand.filter fun c => c.suit = 1),
       avgRank (hand.filter fun c => c.suit = 2),
       avgRank (hand.filter fun c => c.suit = 3),
       avgRank (hand.filter fun c => c.suit = trumpCard.suit),
       ((hand.filter fun c => c.rank ∈ (table.map Card.rank).dedup).length : ℚ),
       ((if 0 < (table.map Card.rank).dedup.length then
           hand.filter fun c => maxTableRank table < c.rank ∨ c.suit = trumpCard.suit
         else hand).length : ℚ),
       (((table.map Card.rank).dedup.length : ℕ) : ℚ),
       ((opponentHand.filter fun c => c.rank ∈ (table.map Card.rank).dedup).length : ℚ),
       ((if 0 < (table.map Card.rank).dedup.length then
           opponentHand.filter fun c => maxTableRank table < c.rank ∨ c.suit = trumpCard.suit
         else opponentHand).length : ℚ)] := by
  simp [extractFeatures, RANKS, List.range']

/-- C10: the unseenCards argument has no influence on extractFeatures:
two calls agreeing on every other argument return identical vectors. -/
theorem unseen_cards_no_influence (hand opponentHand : List Card)
    (opponentHandSize : ℕ) (trumpCard : Card) (table : List Card)
    (deckSize : ℤ) (u1 u2 : List Card) :
    extractFeatures hand opponentHand opponentHandSize trumpCard table
        deckSize u1 =
      extractFeatures hand opponentHand opponentHandSize trumpCard table
        deckSize u2 := rfl

/-- C8: on the empty hand, avgRank returns 0 without dividing by zero, and
every hand-derived count feature and every average-rank feature of
extractFeatures is 0; only the table, deck, opponent-size and
opponent-knowledge features may be non-zero. -/
theorem empty_hand_features (opponentHand : List Card)
    (opponentHandSize : ℕ) (trumpCard : Card) (table : List Card)
    (deckSize : ℤ) (unseenCards : List Card) :
    avgRank [] = 0 ∧
    extractFeatures [] opponentHand opponentHandSize trumpCard table
        deckSize unseenCards =
      [0, (table.length : ℚ), (deckSize : ℚ), (opponentHandSize : ℚ),
       0, 0, 0, 0, 0, 0, 0, 0, 0,
       0, 0, 0, 0, 0, 0,
       0, 0, 0, 0, 0,
       0, 0,
       (((table.map Card.rank).dedup.length : ℕ) : ℚ),
       ((opponentHand.filter fun c =>
           c.rank ∈ (table.map Card.rank).dedup).length : ℚ),
       ((if 0 < (table.map Card.rank).dedup.length then
           opponentHand.filter fun c =>
             maxTableRank table < c.rank ∨ c.suit = trumpCard.suit
         else opponentHand).length : ℚ)] := by
  refine ⟨rfl, ?_⟩
  rw [extractFeatures_eq]
  simp [avgRank]

/-- C3 counterexample: with hand = [10 of clubs], trump = hearts and table
= [6 of diamonds], the defend-count feature (index 25, item 12 of the
spec's list) is 1, while the count under the claimed rule (strictly
higher rank in the same suit, or trump) is 0: the source counts a higher
rank in ANY suit. -/
theorem feature12_same_suit_cex :
    (extractFeatures [⟨0, 10⟩] [] 0 ⟨1, 6⟩ [⟨2, 6⟩] 0 [])[25]! = 1 ∧
    claimedBeatCount [⟨0, 10⟩] ⟨1, 6⟩ ⟨2, 6⟩ = 0 ∧
    (extractFeatures [⟨0, 10⟩] [] 0 ⟨1, 6⟩ [⟨2, 6⟩] 0 [])[25]! ≠
      ((claimedBeatCount [⟨0, 10⟩] ⟨1, 6⟩ ⟨2, 6⟩ : ℕ) : ℚ) := by
  rw [extractFeatures_eq]
  norm_num [claimedBeatCount, maxTableRank]

/-- C3 amended: for a non-empty table, feature index 25 counts the hand
cards whose rank strictly exceeds the highest table rank IN ANY SUIT or
that are of the trump suit; for an empty table it is the whole hand. -/
theorem defend_feature_amended (hand opponentHand : List Card)
    (opponentHandSize : ℕ) (trumpCard : Card) (table : List Card)
    (deckSize : ℤ) (unseenCards : List Card) :
    (table ≠ [] →
      (extractFeatures hand opponentHand opponentHandSize trumpCard table
          deckSize unseenCards)[25]! =
        ((hand.filter fun c =>
            maxTableRank table < c.rank ∨ c.suit = trumpCard.suit).length : ℚ)) ∧
    (table = [] →
      (extractFeatures hand opponentHand opponentHandSize trumpCard table
          deckSize unseenCards)[25]! = (hand.length : ℚ)) := by
  rw [extractFeatures_eq]
  constructor
  · intro ht
    have hpos : 0 < (table.map Card.rank).dedup.length := by
      rw [List.length_pos, Ne, List.dedup_eq_nil, List.map_eq_nil_iff]
      exact ht
    simp [hpos]
  · intro ht
    subst ht
    simp

/-- Witness for defend_feature_amended at a concrete non-empty table. -/
theorem defend_feature_amended_witness :
    (extractFeatures [⟨0, 10⟩] [] 0 ⟨1, 6⟩ [⟨2, 6⟩] 0 [])[25]! =
      ((([⟨0, 10⟩] : List Card).filter fun c =>
          maxTableRank [⟨2, 6⟩] < c.rank ∨
            c.suit = (⟨1, 6⟩ : Card).suit).length : ℚ) :=
  (defend_feature_amended [⟨0, 10⟩] [] 0 ⟨1, 6⟩ [⟨2, 6⟩] 0 []).1 (by simp)

/-- C6: the feature vector always has exactly 29 entries, the initial
weight vectors have 29 entries, and the TD update of a 29-entry weight
vector again has 29 entries. -/
theorem vector_lengths (hand opponentHand : List Card)
    (opponentHandSize : ℕ) (trumpCard : Card) (table : List Card)
    (deckSize : ℤ) (unseenCards : List Card) (gauss : ℕ → ℝ) (w : List ℝ)
    (s : Snapshot) (post : Option Snapshot) (r : ℝ) (hw : w.length = 29) :
    (extractFeatures hand opponentHand opponentHandSize trumpCard table
        deckSize unseenCards).length = 29 ∧
    (initWeights gauss).length = 29 ∧
    (tdUpdate w s post r).length = 29 := by
  have hf : ∀ s2 : Snapshot, (snapFeatures s2).length = 29 := by
    intro s2
    rw [snapFeatures, extractFeatures_eq]
    rfl
  refine ⟨?_, ?_, ?_⟩
  · rw [extractFeatures_eq]
    rfl
  · simp [initWeights]
  · rw [tdUpdate.eq_def]
    simp only [List.length_zipWith, List.length_map, realFeatures]
    rw [hw, hf s]
    omega

/-- Witness for vector_lengths on closed inputs. -/
theorem vector_lengths_witness :
    (extractFeatures [] [] 0 ⟨0, 6⟩ [] 0 []).length = 29 ∧
    (initWeights fun _ => 0).length = 29 ∧
    (tdUpdate (List.replicate 29 0) snap0 none 0).length = 29 :=
  vector_lengths [] [] 0 ⟨0, 6⟩ [] 0 [] (fun _ => 0) (List.replicate 29 0)
    snap0 none 0 (by simp)

/-- C7: logisticValue is the sigmoid of the dot product, lies strictly
between 0 and 1, and equals exactly one half when the dot product is 0. -/
theorem logistic_value_props (weights features : List ℝ) :
    logisticValue weights features =
      1 / (1 + Real.exp (-(dotProd weights features))) ∧
    0 < logisticValue weights features ∧
    logisticValue weights features < 1 ∧
    (dotProd weights features = 0 → logisticValue weights features = 1 / 2) := by
  have hexp := Real.exp_pos (-(dotProd weights features))
  have hden : 0 < 1 + Real.exp (-(dotProd weights features)) := by linarith
  refine ⟨rfl, ?_, ?_, ?_⟩
  · rw [logisticValue]
    positivity
  · rw [logisticValue, div_lt_one hden]
    linarith
  · intro h
    rw [logisticValue, h]
    norm_num

/-- Witness for logistic_value_props: on empty vectors the dot product is 0,
so the value is strictly positive and equal to one half. -/
theorem logistic_value_props_witness :
    0 < logisticValue [] [] ∧ logisticValue [] [] = 1 / 2 :=
  ⟨(logistic_value_props [] []).2.1,
   (logistic_value_props [] []).2.2.2 (by simp [dotProd])⟩

/-- C1: for a non-None pre-state, both TD entry points store the vector
computed by the shared update body, and entry i of that vector is
w_i + 0.1 * residual * (v * (1 - v) * feature_i), with the residual as
the spec states it (bootstrap added, not subtracted, no discount). -/
theorem td_update_formula (w : List ℝ) (s : Snapshot)
    (post : Option Snapshot) (r : ℝ) (i : ℕ) (hwi : i < w.length)
    (hfi : i < (snapFeatures s).length) :
    tdUpdateAttack w (some s) post r = some (tdUpdate w s post r) ∧
    tdUpdateDefend w (some s) post r = some (tdUpdate w s post r) ∧
    (tdUpdate w s post r)[i]? = some
      (w.get ⟨i, hwi⟩ +
        0.1 * specResidual w s post r *
          (logisticValue w (realFeatures (snapFeatures s)) *
            (1 - logisticValue w (realFeatures (snapFeatures s))) *
            ((snapFeatures s).get ⟨i, hfi⟩ : ℝ))) := by
  refine ⟨rfl, rfl, ?_⟩
  cases post with
  | none =>
    rw [tdUpdate.eq_def]
    simp only [specResidual, realFeatures, List.getElem?_zipWith',
      List.getElem?_map, List.getElem?_eq_getElem hwi,
      List.getElem?_eq_getElem hfi, Option.map_some', Option.bind_some,
      List.get_eq_getElem]
    exact congrArg some (by ring)
  | some t =>
    rw [tdUpdate.eq_def]
    simp only [specResidual, realFeatures, List.getElem?_zipWith',
      List.getElem?_map, List.getElem?_eq_getElem hwi,
      List.getElem?_eq_getElem hfi, Option.map_some', Option.bind_some,
      List.get_eq_getElem]
    exact congrArg some (by ring)

/-- Witness for td_update_formula on closed inputs. -/
theorem td_update_formula_witness :
    tdUpdateAttack [(1 : ℝ)] (some snap0) none 0 =
      some (tdUpdate [(1 : ℝ)] snap0 none 0) :=
  (td_update_formula [(1 : ℝ)] snap0 none 0 0 (by simp)
    (by rw [snapFeatures, extractFeatures_eq]; norm_num)).1

/-- C2 counterexample: TDUpdateAttack with a None pre-state is not a no-op:
the source reaches extractFeatures(*None) and fails (modelled as none),
rather than returning the stored weights unchanged. -/
theorem td_none_attack_cex :
    tdUpdateAttack [(1 : ℝ)] none none 0 = none ∧
    tdUpdateAttack [(1 : ℝ)] none none 0 ≠ some [(1 : ℝ)] := by
  refine ⟨rfl, ?_⟩
  rw [tdUpdateAttack]
  simp

/-- C2 amended: only TDUpdateDefend guards against a None pre-state and is
then a no-op; TDUpdateAttack has no guard and errors on a None pre-state. -/
theorem td_none_amended (w : List ℝ) (post : Option Snapshot) (r : ℝ) :
    tdUpdateDefend w none post r = some w ∧
    tdUpdateAttack w none post r = none :=
  ⟨rfl, rfl⟩


/-- Invariant of the running-maximum fold of chooseAction: starting from a
stored pair, the fold returns a stored value that bounds every list value,
and either the start survives or the result is the first strict improver
of the running maximum. -/
theorem foldl_maxStep_some (vals : List ℝ) : ∀ (n i : ℕ) (v : ℝ),
    ∃ j w, List.foldl maxStep (some (i, v)) (vals.enumFrom n) = some (j, w) ∧
      v ≤ w ∧ (∀ k (hk : k < vals.length), vals.get ⟨k, hk⟩ ≤ w) ∧
      ((j = i ∧ w = v) ∨
        ∃ k, ∃ (hk : k < vals.length), j = n + k ∧ w = vals.get ⟨k, hk⟩ ∧
          v < w ∧ ∀ m (hm : m < k), vals.get ⟨m, lt_trans hm hk⟩ < w) := by
  induction vals with
  | nil =>
    intro n i v
    exact ⟨i, v, rfl, le_refl v, by simp, Or.inl ⟨rfl, rfl⟩⟩
  | cons a rest ih =>
    intro n i v
    rw [List.enumFrom_cons, List.foldl_cons]
    by_cases hva : v < a
    · have hstep : maxStep (some (i, v)) (n, a) = some (n, a) := by
        simp [maxStep, hva]
      rw [hstep]
      obtain ⟨j, w, heq, haw, hall, hdisj⟩ := ih (n + 1) n a
      refine ⟨j, w, heq, le_of_lt (lt_of_lt_of_le hva haw), ?_, ?_⟩
      · intro k hk
        match k with
        | 0 => exact haw
        | k + 1 => exact hall k (by simpa using hk)
      · rcases hdisj with ⟨hj, hw⟩ | ⟨k, hk, hj, hw, haw2, hmlt⟩
        · refine Or.inr ⟨0, by simp, by omega, by simp [hw],
            hva.trans_le (le_of_eq hw.symm), ?_⟩
          intro m hm
          omega
        · refine Or.inr ⟨k + 1, by simpa using hk, by omega, by simpa using hw,
            hva.trans haw2, ?_⟩
          intro m hm
          match m with
          | 0 => simpa using haw2
          | m + 1 => simpa using hmlt m (by omega)
    · have hstep : maxStep (some (i, v)) (n, a) = some (i, v) := by
        simp [maxStep, hva]
      rw [hstep]
      obtain ⟨j, w, heq, haw, hall, hdisj⟩ := ih (n + 1) i v
      refine ⟨j, w, heq, haw, ?_, ?_⟩
      · intro k hk
        match k with
        | 0 => simpa using le_trans (not_lt.mp hva) haw
        | k + 1 => exact hall k (by simpa using hk)
      · rcases hdisj with ⟨hj, hw⟩ | ⟨k, hk, hj, hw, hvw, hmlt⟩
        · exact Or.inl ⟨hj, hw⟩
        · refine Or.inr ⟨k + 1, by simpa using hk, by omega, by simpa using hw,
            hvw, ?_⟩
          intro m hm
          match m with
          | 0 => simpa using lt_of_le_of_lt (not_lt.mp hva) hvw
          | m + 1 => simpa using hmlt m (by omega)

/-- The chooseAction loop returns the first-encountered maximum: its index,
its value, maximality, and strictness against all earlier indices. -/
theorem pyArgmax_spec (vals : List ℝ) (hne : vals ≠ []) :
    ∃ i, ∃ (hi : i < vals.length),
      pyArgmax vals = some (i, vals.get ⟨i, hi⟩) ∧
      (∀ k (hk : k < vals.length), vals.get ⟨k, hk⟩ ≤ vals.get ⟨i, hi⟩) ∧
      ∀ m (hm : m < i), vals.get ⟨m, lt_trans hm hi⟩ < vals.get ⟨i, hi⟩ := by
  match vals with
  | [] => exact absurd rfl hne
  | a :: rest =>
    have hstart : pyArgmax (a :: rest) =
        List.foldl maxStep (some (0, a)) (rest.enumFrom 1) := by
      rw [pyArgmax, List.enum]
      rw [List.enumFrom_cons, List.foldl_cons]
      rfl
    obtain ⟨j, w, heq, haw, hall, hdisj⟩ := foldl_maxStep_some rest 1 0 a
    rcases hdisj with ⟨hj, hw⟩ | ⟨k, hk, hj, hw, hvw, hmlt⟩
    · subst hj hw
      refine ⟨0, by simp, by rw [hstart, heq]; rfl, ?_, by omega⟩
      intro k hk
      match k with
      | 0 => exact le_refl _
      | k + 1 => simpa using hall k (by simpa using hk)
    · subst hj hw
      refine ⟨1 + k, by simp only [List.length_cons]; omega, ?_, ?_, ?_⟩
      · rw [hstart, heq]
        have h1k : 1 + k = k + 1 := by omega
        simp [List.get_eq_getElem, h1k]
      · intro k2 hk2
        have h1k : 1 + k = k + 1 := by omega
        simp only [List.get_eq_getElem, h1k]
        match k2 with
        | 0 => simpa using le_of_lt hvw
        | k2 + 1 => simpa using hall k2 (by simpa using hk2)
      · intro m hm
        have h1k : 1 + k = k + 1 := by omega
        simp only [List.get_eq_getElem, h1k]
        match m with
        | 0 => simpa using hvw
        | m + 1 => simpa using hmlt m (by omega)

/-- Behaviour of the stop-sentinel comparison wrapped around pyArgmax as in
chooseAttackCard / chooseDefenseCard. -/
theorem stopMatch_spec (vals : List ℝ) (stopV : ℝ) (hne : vals ≠ []) :
    ∃ res : ℤ,
      (match pyArgmax vals with
       | some (maxI, maxV) => if maxV < stopV then (-1 : ℤ) else (maxI : ℤ)
       | none => (-1 : ℤ)) = res ∧
      -1 ≤ res ∧ res < vals.length ∧
      (res = -1 ↔ ∀ j (hj : j < vals.length), vals.get ⟨j, hj⟩ < stopV) ∧
      (res ≠ -1 → ∃ i, ∃ (hi : i < vals.length), res = i ∧
        (∀ j (hj : j < vals.length), vals.get ⟨j, hj⟩ ≤ vals.get ⟨i, hi⟩) ∧
        ∀ m (hm : m < i), vals.get ⟨m, lt_trans hm hi⟩ < vals.get ⟨i, hi⟩) := by
  obtain ⟨i, hi, heq, hmax, hfirst⟩ := pyArgmax_spec vals hne
  rw [heq]
  by_cases hstop : vals.get ⟨i, hi⟩ < stopV
  · have hred : (match some (i, vals.get ⟨i, hi⟩) with
       | some (maxI, maxV) => if maxV < stopV then (-1 : ℤ) else (maxI : ℤ)
       | none => (-1 : ℤ)) =
        (if vals.get ⟨i, hi⟩ < stopV then (-1 : ℤ) else (i : ℤ)) := rfl
    refine ⟨-1, by rw [hred, if_pos hstop], le_refl _, by omega, ?_, by tauto⟩
    simp only [true_iff]
    intro j hj
    exact lt_of_le_of_lt (hmax j hj) hstop
  · have hred : (match some (i, vals.get ⟨i, hi⟩) with
       | some (maxI, maxV) => if maxV < stopV then (-1 : ℤ) else (maxI : ℤ)
       | none => (-1 : ℤ)) =
        (if vals.get ⟨i, hi⟩ < stopV then (-1 : ℤ) else (i : ℤ)) := rfl
    refine ⟨(i : ℤ), by rw [hred, if_neg hstop], by omega, by exact_mod_cast hi, ?_, ?_⟩
    · constructor
      · intro habs
        omega
      · intro hall
        exact absurd (hall i hi) hstop
    · intro hres
      exact ⟨i, hi, rfl, hmax, hfirst⟩

/-- Options-level form of stopMatch_spec, with scores pulled back through
the score function. -/
theorem choose_spec_generic (sc : Card → ℝ) (stopV : ℝ)
    (options : List Card) (hne : options ≠ []) :
    ∃ res : ℤ,
      (match pyArgmax (options.map sc) with
       | some (maxI, maxV) => if maxV < stopV then (-1 : ℤ) else (maxI : ℤ)
       | none => (-1 : ℤ)) = res ∧
      -1 ≤ res ∧ res < options.length ∧
      (res = -1 ↔ ∀ j (hj : j < options.length),
        sc (options.get ⟨j, hj⟩) < stopV) ∧
      (res ≠ -1 → ∃ i, ∃ (hi : i < options.length), res = i ∧
        (∀ j (hj : j < options.length),
          sc (options.get ⟨j, hj⟩) ≤ sc (options.get ⟨i, hi⟩)) ∧
        ∀ m (hm : m < i),
          sc (options.get ⟨m, lt_trans hm hi⟩) < sc (options.get ⟨i, hi⟩)) := by
  have hmapne : options.map sc ≠ [] := by simpa using hne
  obtain ⟨res, hres, h1, h2, h3, h4⟩ := stopMatch_spec (options.map sc) stopV hmapne
  have hlen : (options.map sc).length = options.length := List.length_map _ _
  have hget : ∀ j (hj1 : j < (options.map sc).length) (hj2 : j < options.length),
      (options.map sc).get ⟨j, hj1⟩ = sc (options.get ⟨j, hj2⟩) := by
    intro j h1j h2j
    simp [List.get_eq_getElem]
  refine ⟨res, hres, h1, by omega, ?_, ?_⟩
  · rw [h3]
    constructor
    · intro hall j hj
      rw [← hget j (by omega) hj]
      exact hall j (by omega)
    · intro hall j hj
      rw [hget j hj (by omega)]
      exact hall j (by omega)
  · intro hres2
    obtain ⟨i, hi, hresEq, hmax, hfirst⟩ := h4 hres2
    refine ⟨i, by omega, hresEq, ?_, ?_⟩
    · intro j hj
      rw [← hget j (by omega) hj, ← hget i hi (by omega)]
      exact hmax j (by omega)
    · intro m hm
      rw [← hget m (by omega) (lt_trans hm (by omega)), ← hget i hi (by omega)]
      exact hfirst m hm

/-- C4: for non-empty options, chooseAttackCard and chooseDefenseCard
return -1 exactly when the stop-state score strictly exceeds every
concrete option score, otherwise the index of the first-encountered
maximum-scoring option; the result always lies in [-1, len(options)-1]. -/
theorem reflex_choice_spec (hand opponentHand unseenCards options
    table : List Card) (trumpCard : Card) (deckSize : ℤ)
    (opponentHandSize : ℕ) (wAtk wDef : List ℝ) (hne : options ≠ []) :
    (-1 ≤ chooseAttackCard hand opponentHand unseenCards options table
        trumpCard deckSize opponentHandSize wAtk ∧
      chooseAttackCard hand opponentHand unseenCards options table trumpCard
        deckSize opponentHandSize wAtk < options.length ∧
      (chooseAttackCard hand opponentHand unseenCards options table trumpCard
          deckSize opponentHandSize wAtk = -1 ↔
        ∀ j (hj : j < options.length),
          optionScore hand opponentHand unseenCards table trumpCard deckSize
              opponentHandSize wAtk (options.get ⟨j, hj⟩) <
            attackStopValue hand opponentHand unseenCards trumpCard deckSize
              opponentHandSize wAtk) ∧
      (chooseAttackCard hand opponentHand unseenCards options table trumpCard
          deckSize opponentHandSize wAtk ≠ -1 →
        ∃ i, ∃ (hi : i < options.length),
          chooseAttackCard hand opponentHand unseenCards options table
            trumpCard deckSize opponentHandSize wAtk = i ∧
          (∀ j (hj : j < options.length),
            optionScore hand opponentHand unseenCards table trumpCard deckSize
                opponentHandSize wAtk (options.get ⟨j, hj⟩) ≤
              optionScore hand opponentHand unseenCards table trumpCard
                deckSize opponentHandSize wAtk (options.get ⟨i, hi⟩)) ∧
          ∀ m (hm : m < i),
            optionScore hand opponentHand unseenCards table trumpCard deckSize
                opponentHandSize wAtk (options.get ⟨m, lt_trans hm hi⟩) <
              optionScore hand opponentHand unseenCards table trumpCard
                deckSize opponentHandSize wAtk (options.get ⟨i, hi⟩))) ∧
    (-1 ≤ chooseDefenseCard hand opponentHand unseenCards options table
        trumpCard deckSize opponentHandSize wDef ∧
      chooseDefenseCard hand opponentHand unseenCards options table trumpCard
        deckSize opponentHandSize wDef < options.length ∧
      (chooseDefenseCard hand opponentHand unseenCards options table trumpCard
          deckSize opponentHandSize wDef = -1 ↔
        ∀ j (hj : j < options.length),
          optionScore hand opponentHand unseenCards table trumpCard deckSize
              opponentHandSize wDef (options.get ⟨j, hj⟩) <
            defendStopValue hand opponentHand unseenCards table trumpCard
              deckSize opponentHandSize wDef) ∧
      (chooseDefenseCard hand opponentHand unseenCards options table trumpCard
          deckSize opponentHandSize wDef ≠ -1 →
        ∃ i, ∃ (hi : i < options.length),
          chooseDefenseCard hand opponentHand unseenCards options table
            trumpCard deckSize opponentHandSize wDef = i ∧
          (∀ j (hj : j < options.length),
            optionScore hand opponentHand unseenCards table trumpCard deckSize
                opponentHandSize wDef (options.get ⟨j, hj⟩) ≤
              optionScore hand opponentHand unseenCards table trumpCard
                deckSize opponentHandSize wDef (options.get ⟨i, hi⟩)) ∧
          ∀ m (hm : m < i),
            optionScore hand opponentHand unseenCards table trumpCard deckSize
                opponentHandSize wDef (options.get ⟨m, lt_trans hm hi⟩) <
              optionScore hand opponentHand unseenCards table trumpCard
                deckSize opponentHandSize wDef (options.get ⟨i, hi⟩))) := by
  obtain ⟨resA, hresA, hA1, hA2, hA3, hA4⟩ :=
    choose_spec_generic
      (optionScore hand opponentHand unseenCards table trumpCard deckSize
        opponentHandSize wAtk)
      (attackStopValue hand opponentHand unseenCards trumpCard deckSize
        opponentHandSize wAtk) options hne
  obtain ⟨resD, hresD, hD1, hD2, hD3, hD4⟩ :=
    choose_spec_generic
      (optionScore hand opponentHand unseenCards table trumpCard deckSize
        opponentHandSize wDef)
      (defendStopValue hand opponentHand unseenCards table trumpCard deckSize
        opponentHandSize wDef) options hne
  have hCA : chooseAttackCard hand opponentHand unseenCards options table
      trumpCard deckSize opponentHandSize wAtk = resA := hresA
  have hCD : chooseDefenseCard hand opponentHand unseenCards options table
      trumpCard deckSize opponentHandSize wDef = resD := hresD
  rw [hCA, hCD]
  exact ⟨⟨hA1, hA2, hA3, hA4⟩, ⟨hD1, hD2, hD3, hD4⟩⟩

/-- Witness for reflex_choice_spec on a closed one-option input. -/
theorem reflex_choice_spec_witness :
    -1 ≤ chooseAttackCard [⟨0, 6⟩] [] [] [⟨0, 6⟩] [] ⟨0, 6⟩ 0 0 [] :=
  (reflex_choice_spec [⟨0, 6⟩] [] [] [⟨0, 6⟩] [] ⟨0, 6⟩ 0 0 [] []
    (by simp)).1.1


/-- If some element strictly dominates every other element under the key
function, the Python max-by-key fold returns it whatever the order of the
remaining elements. -/
theorem foldl_maxKey_unique (f : PCard → EReal) (c0 : PCard) :
    ∀ (l : List PCard) (best : PCard),
      (c0 ∈ l ∨ best = c0) →
      (∀ c ∈ l, c ≠ c0 → f c < f c0) →
      (best ≠ c0 → f best < f c0) →
      l.foldl (fun b x => if f b < f x then x else b) best = c0 := by
  intro l
  induction l with
  | nil =>
    intro best hor hmax hbest
    rcases hor with h | h
    · exact absurd h (List.not_mem_nil c0)
    · exact h
  | cons x xs ih =>
    intro best hor hmax hbest
    rw [List.foldl_cons]
    by_cases hbc : best = c0
    · subst hbc
      have hnf : ¬ f best < f x := by
        by_cases hx : x = best
        · subst hx
          exact lt_irrefl _
        · exact not_lt.mpr
            (le_of_lt (hmax x (List.mem_cons_self x xs) hx))
      rw [if_neg hnf]
      exact ih best (Or.inr rfl)
        (fun c hc => hmax c (List.mem_cons_of_mem x hc))
        (fun h => absurd rfl h)
    · have hfb : f best < f c0 := hbest hbc
      by_cases hx : x = c0
      · subst hx
        rw [if_pos hfb]
        exact ih x (Or.inr rfl)
          (fun c hc => hmax c (List.mem_cons_of_mem x hc))
          (fun h => absurd rfl h)
      · have hfx : f x < f c0 := hmax x (List.mem_cons_self x xs) hx
        have hc0xs : c0 ∈ xs := by
          rcases hor with h | h
          · rcases List.mem_cons.mp h with h2 | h2
            · exact absurd h2.symm hx
            · exact h2
          · exact absurd h hbc
        by_cases hfbx : f best < f x
        · rw [if_pos hfbx]
          exact ih x (Or.inl hc0xs)
            (fun c hc => hmax c (List.mem_cons_of_mem x hc))
            (fun _ => hfx)
        · rw [if_neg hfbx]
          exact ih best (Or.inl hc0xs)
            (fun c hc => hmax c (List.mem_cons_of_mem x hc))
            (fun _ => hfb)

/-- Python max(cards, key=f) returns a strictly dominating element
independently of the list order. -/
theorem pyMaxKey_unique (f : PCard → EReal) (l : List PCard) (c0 : PCard)
    (hmem : c0 ∈ l) (hmax : ∀ c ∈ l, c ≠ c0 → f c < f c0) :
    pyMaxKey f l = some c0 := by
  match l with
  | [] => exact absurd hmem (List.not_mem_nil c0)
  | a :: rest =>
    rw [pyMaxKey]
    refine congrArg some ?_
    refine foldl_maxKey_unique f c0 rest a ?_
      (fun c hc hneq => hmax c (List.mem_cons_of_mem a hc) hneq)
      (fun hne => hmax a (List.mem_cons_self a rest) hne)
    rcases List.mem_cons.mp hmem with h | h
    · exact Or.inr h.symm
    · exact Or.inl h

/-- C9: when the root alpha-beta values have a unique maximum, permuting
the candidate list does not change the card minimaxChoice returns: both
orders return the dominating card (order only matters for tie-breaking). -/
theorem minimax_perm_invariant {G : Type} (A : GameAPI G)
    (wAtk wDef : List ℝ) (depth : ℕ) (playerNum : Bool) (game : G)
    (cards cards2 : List PCard) (c0 : PCard) (hperm : cards.Perm cards2)
    (hmem : c0 ∈ cards)
    (hmax : ∀ c ∈ cards, c ≠ c0 →
      getValueRec A wAtk wDef playerNum (!playerNum) game c depth ⊥ ⊤ <
        getValueRec A wAtk wDef playerNum (!playerNum) game c0 depth ⊥ ⊤) :
    minimaxChoice A wAtk wDef depth playerNum cards game = some c0 ∧
    minimaxChoice A wAtk wDef depth playerNum cards2 game = some c0 := by
  have hmem2 : c0 ∈ cards2 := hperm.mem_iff.mp hmem
  have hmax2 : ∀ c ∈ cards2, c ≠ c0 →
      getValueRec A wAtk wDef playerNum (!playerNum) game c depth ⊥ ⊤ <
        getValueRec A wAtk wDef playerNum (!playerNum) game c0 depth ⊥ ⊤ :=
    fun c hc => hmax c (hperm.mem_iff.mpr hc)
  exact ⟨pyMaxKey_unique _ cards c0 hmem hmax,
    pyMaxKey_unique _ cards2 c0 hmem2 hmax2⟩

/-- Witness for minimax_perm_invariant: in pickyGame only the six of clubs
wins, so both orders of a two-card list select it. -/
theorem minimax_perm_invariant_witness :
    minimaxChoice pickyGame [] [] 0 false
      [PCard.card ⟨0, 6⟩, PCard.card ⟨0, 7⟩] none =
        some (PCard.card ⟨0, 6⟩) ∧
    minimaxChoice pickyGame [] [] 0 false
      [PCard.card ⟨0, 7⟩, PCard.card ⟨0, 6⟩] none =
        some (PCard.card ⟨0, 6⟩) :=
  minimax_perm_invariant pickyGame [] [] 0 false none
    [PCard.card ⟨0, 6⟩, PCard.card ⟨0, 7⟩]
    [PCard.card ⟨0, 7⟩, PCard.card ⟨0, 6⟩]
    (PCard.card ⟨0, 6⟩) (by decide) (by decide)
    (by
      intro c hc hne
      fin_cases hc
      · exact absurd rfl hne
      · have h7 : getValueRec pickyGame [] [] false (!false) none
            (PCard.card ⟨0, 7⟩) 0 ⊥ ⊤ = 0 := by
          rw [getValueRec]
          rfl
        have h6 : getValueRec pickyGame [] [] false (!false) none
            (PCard.card ⟨0, 6⟩) 0 ⊥ ⊤ = 1 := by
          rw [getValueRec]
          rfl
        rw [h7, h6, ← EReal.coe_zero, ← EReal.coe_one]
        exact EReal.coe_lt_coe_iff.mpr zero_lt_one)


/-- C5: getAttackCard and getDefendCard of the enhanced agent use the
inherited simple policy whenever the deck is non-empty; with an empty
deck they return a single option directly, and invoke the alpha-beta
minimax search exactly when more than one option exists. -/
theorem enhanced_dispatch {G : Type} (A : GameAPI G) (wAtk wDef : List ℝ)
    (depth : ℕ) (playerNum : Bool) (cards : List PCard) (game : G) :
    (0 < (A.deck game).length →
      getAttackCard A wAtk wDef depth playerNum cards game =
        some (policy cards (A.trumpSuit game)) ∧
      getDefendCard A wAtk wDef depth playerNum cards game =
        some (policy cards (A.trumpSuit game))) ∧
    ((A.deck game).length = 0 → cards.length = 1 →
      getAttackCard A wAtk wDef depth playerNum cards game = cards.head? ∧
      getDefendCard A wAtk wDef depth playerNum cards game = cards.head?) ∧
    ((A.deck game).length = 0 → 1 < cards.length →
      getAttackCard A wAtk wDef depth playerNum cards game =
        minimaxChoice A wAtk wDef depth playerNum cards game ∧
      getDefendCard A wAtk wDef depth playerNum cards game =
        minimaxChoice A wAtk wDef depth playerNum cards game) := by
  refine ⟨?_, ?_, ?_⟩
  · intro h
    rw [getAttackCard, getDefendCard, if_pos h]
    exact ⟨rfl, rfl⟩
  · intro h0 h1
    rw [getAttackCard, getDefendCard,
      if_neg (show ¬ 0 < (A.deck game).length by omega), if_pos h1]
    exact ⟨rfl, rfl⟩
  · intro h0 h2
    rw [getAttackCard, getDefendCard,
      if_neg (show ¬ 0 < (A.deck game).length by omega),
      if_neg (show ¬ cards.length = 1 by omega)]
    exact ⟨rfl, rfl⟩

/-- Witness for enhanced_dispatch: in toyGame the deck of state true is
non-empty, so the simple policy branch is taken. -/
theorem enhanced_dispatch_witness :
    getAttackCard toyGame [] [] 0 false [PCard.card ⟨0, 6⟩] true =
      some (policy [PCard.card ⟨0, 6⟩] (toyGame.trumpSuit true)) :=
  ((enhanced_dispatch toyGame [] [] 0 false [PCard.card ⟨0, 6⟩] true).1
    (by decide)).1

end Durak
